import Mathlib

/-!
Verification of the analytics core of the crypto price tracker
(`src/services/tracker.py`).

Modelling conventions:
* Python `float` prices are modelled as exact rationals `ℚ`; the claims under
  study are about exact thresholds, ordering and clamping, which the spec
  states over real arithmetic.
* The document store is out of scope: the engine functions take the window
  `history` that `get_price_history` returned (newest-first, as stored), and
  `get_market_analytics_op` / `get_trend_analysis_op` additionally model the
  fetch step as a function parameter, mirroring the call
  `history = self.get_price_history(coin_id, limit)`.
* Python `raise ValueError` is modelled with `Except TrackerError`;
  `TrackerError` carries the spec's error taxonomy (§7): the code's
  insufficient-data `ValueError`s and the spec's `InvalidInput`.
* `statistics.mean`, `statistics.stdev` are `sum/len` and the Bessel-corrected
  sample standard deviation.  The standard deviation needs `Real.sqrt`, so the
  coefficient of variation is given as a real-valued function `coeff_var`,
  and the executable classifier `_calculate_volatility` decides the comparison
  `stdev/mean < t` by the equivalent rational comparison (proved equivalent in
  `cvLt_iff_coeff_var_lt`).
* Python `str.lower` is modelled charwise (`strLower`), and substring
  containment (`in`) by `strContains`.
-/

namespace CryptoTracker

/-- A price snapshot, as `models.coin.CoinPrice` (the timestamp plays no role
in any computation modelled here and is omitted). -/
structure CoinPrice where
  coin_id : String
  price : ℚ
  deriving Repr, DecidableEq

/-- A coin that the user tracks, as `models.coin.TrackedCoin`. -/
structure TrackedCoin where
  coin_id : String
  symbol : String
  name : String
  deriving Repr, DecidableEq

/-- Aggregated analytics for a coin, as the `MarketAnalytics` dataclass. -/
structure MarketAnalytics where
  coin_id : String
  record_count : ℕ
  open_price : ℚ
  close_price : ℚ
  high_price : ℚ
  low_price : ℚ
  average_price : ℚ
  net_change_percent : ℚ
  deriving Repr, DecidableEq

/-- Trend and volatility analysis for a coin, as the `TrendAnalysis`
dataclass. -/
structure TrendAnalysis where
  coin_id : String
  record_count : ℕ
  trend : String
  volatility : String
  momentum_score : ℚ
  net_change_percent : ℚ
  deriving Repr, DecidableEq

/-- Error taxonomy of §7 of the spec.  `insufficientData needed found` models
the `ValueError("Not enough data ... Need at least {needed} records, but found
{found}.")` raised by the two analytics entry points; `invalidInput` is the
spec's empty/negative-limit error. -/
inductive TrackerError where
  | insufficientData (needed found : ℕ)
  | invalidInput
  deriving Repr, DecidableEq

/-- `statistics.mean`: sum of the values divided by their count. -/
def mean (prices : List ℚ) : ℚ := prices.sum / (prices.length : ℚ)

/-- The Bessel-corrected sample variance (square of `statistics.stdev`):
sum of squared deviations from the mean, divided by `n - 1`. -/
def sampleVariance (prices : List ℚ) : ℚ :=
  (prices.map (fun p => (p - mean prices) ^ 2)).sum / ((prices.length : ℚ) - 1)

/-- `statistics.stdev prices`, the Bessel-corrected sample standard
deviation. -/
noncomputable def std_dev (prices : List ℚ) : ℝ :=
  Real.sqrt ((sampleVariance prices : ℚ) : ℝ)

/-- The coefficient of variation computed by `_calculate_volatility`:
`std_dev / mean_price if mean_price != 0 else 0`. -/
noncomputable def coeff_var (prices : List ℚ) : ℝ :=
  if mean prices ≠ 0 then std_dev prices / ((mean prices : ℚ) : ℝ) else 0

/-- Decides `coeff_var prices < t` (for a positive threshold `t`) in rational
arithmetic: for positive mean, `sqrt v / m < t ↔ v < (t*m)^2`; for zero mean
the coefficient is `0`, and for negative mean it is nonpositive.  Proved
equivalent to the real comparison in `cvLt_iff_coeff_var_lt`. -/
def cvLt (prices : List ℚ) (t : ℚ) : Bool :=
  let m := mean prices
  if m = 0 then decide (0 < t)
  else if m < 0 then true
  else decide (sampleVariance prices < (t * m) ^ 2)

/-- `CryptoTracker._calculate_volatility`: fewer than 2 prices gives
`"Unknown"`; otherwise classify the coefficient of variation with strict
upper bounds `0.01` and `0.05`. -/
def _calculate_volatility (prices : List ℚ) : String :=
  if prices.length < 2 then "Unknown"
  else if cvLt prices (1 / 100) then "Low"
  else if cvLt prices (5 / 100) then "Medium"
  else "High"

/-- The `if norm_slope > 0.5 ... elif ... else` chain at the end of
`CryptoTracker._calculate_trend`, evaluated in source order. -/
def trendLabel (norm_slope : ℚ) : String :=
  if norm_slope > 1 / 2 then "Strong Uptrend"
  else if norm_slope > 1 / 10 then "Uptrend"
  else if norm_slope < -(1 / 2) then "Strong Downtrend"
  else if norm_slope < -(1 / 10) then "Downtrend"
  else "Sideways"

/-- `CryptoTracker._calculate_trend`: least-squares slope over the points
`(i, prices[i])`, `slope = 0` on a zero denominator (the caught
`ZeroDivisionError`), normalised as percent of the mean price (`0` when the
mean is `0`), labelled by `trendLabel`. -/
def _calculate_trend (prices : List ℚ) : String × ℚ :=
  let n := prices.length
  let sum_x : ℚ := ((List.range n).map (fun i => (i : ℚ))).sum
  let sum_y : ℚ := prices.sum
  let sum_xy : ℚ := ((List.range n).map (fun (i : ℕ) => (i : ℚ) * prices.getD i 0)).sum
  let sum_x2 : ℚ := ((List.range n).map (fun i => (i : ℚ) ^ 2)).sum
  let denom : ℚ := (n : ℚ) * sum_x2 - sum_x ^ 2
  let slope : ℚ := if denom = 0 then 0 else ((n : ℚ) * sum_xy - sum_x * sum_y) / denom
  let mean_price := mean prices
  let norm_slope : ℚ := if mean_price ≠ 0 then (slope / mean_price) * 100 else 0
  (trendLabel norm_slope, norm_slope)

/-- `CryptoTracker._calculate_momentum`:
`min(max(abs(net_change_percent)*0.5 + abs(norm_slope)*20, 0), 10)`. -/
def _calculate_momentum (net_change_percent norm_slope : ℚ) : ℚ :=
  min (max (|net_change_percent| * (1 / 2) + |norm_slope| * 20) 0) 10

/-- `CryptoTracker.get_market_analytics`, given the window `history` that
`get_price_history(coin_id, limit)` returned (newest-first). -/
def get_market_analytics (coin_id : String) (history : List CoinPrice) :
    Except TrackerError MarketAnalytics :=
  let actual_count := history.length
  if actual_count < 2 then .error (.insufficientData 2 actual_count)
  else
    let prices := history.map (·.price)
    let open_price := (prices.getLast?).getD 0
    let close_price := (prices.head?).getD 0
    let net_change : ℚ :=
      if open_price ≠ 0 then ((close_price - open_price) / open_price) * 100 else 0
    .ok
      { coin_id := coin_id
        record_count := actual_count
        open_price := open_price
        close_price := close_price
        high_price := (prices.max?).getD 0
        low_price := (prices.min?).getD 0
        average_price := mean prices
        net_change_percent := net_change }

/-- `CryptoTracker.get_trend_analysis`, given the window `history` that
`get_price_history(coin_id, limit)` returned (newest-first).  Note that the
source passes `prices` to `_calculate_volatility` and `_calculate_trend`
exactly as fetched, without reversing. -/
def get_trend_analysis (coin_id : String) (history : List CoinPrice) :
    Except TrackerError TrendAnalysis :=
  if history.length < 4 then .error (.insufficientData 4 history.length)
  else
    let prices := history.map (·.price)
    let volatility := _calculate_volatility prices
    let tr := _calculate_trend prices
    let open_price := (prices.getLast?).getD 0
    let close_price := (prices.head?).getD 0
    let net_change_percent : ℚ :=
      if open_price ≠ 0 then ((close_price - open_price) / open_price) * 100 else 0
    let momentum_score := _calculate_momentum net_change_percent tr.2
    .ok
      { coin_id := coin_id
        record_count := prices.length
        trend := tr.1
        volatility := volatility
        momentum_score := momentum_score
        net_change_percent := net_change_percent }

/-- `get_market_analytics` with the fetch step explicit: `fetch coin_id limit`
models `self.get_price_history(coin_id, limit)`, the store query that the
source performs unconditionally before anything else. -/
def get_market_analytics_op (coin_id : String)
    (fetch : String → ℤ → List CoinPrice) (limit : ℤ) :
    Except TrackerError MarketAnalytics :=
  get_market_analytics coin_id (fetch coin_id limit)

/-- `get_trend_analysis` with the fetch step explicit. -/
def get_trend_analysis_op (coin_id : String)
    (fetch : String → ℤ → List CoinPrice) (limit : ℤ) :
    Except TrackerError TrendAnalysis :=
  get_trend_analysis coin_id (fetch coin_id limit)

/-- `CryptoTracker.record_prices_for_all_tracked`: iterate over the tracked
coins, appending the snapshot of each successful `record_price_for_coin`
call and skipping (logging only) each failed one.  The fetch-and-save step is
the parameter `record_price_for_coin`, whose `Except` models the caught
exception. -/
def record_prices_for_all_tracked (tracked : List TrackedCoin)
    (record_price_for_coin : String → Except String CoinPrice) : List CoinPrice :=
  if tracked = [] then []
  else
    tracked.foldl
      (fun prices t =>
        match record_price_for_coin t.coin_id with
        | .ok p => prices ++ [p]
        | .error _ => prices)
      []

/-- A catalog record `{id, symbol, name}` as returned by
`client.get_supported_coins_with_details()`; a missing key is the empty
string, matching `coin.get("symbol", "")`. -/
structure CatalogEntry where
  id : String
  symbol : String
  name : String
  deriving Repr, DecidableEq

/-- Python `str.lower()`, modelled charwise. -/
def strLower (s : String) : String := ⟨s.data.map Char.toLower⟩

/-- Python substring containment `needle in hay`. -/
def strContains (hay needle : String) : Bool := decide (needle.data <:+: hay.data)

/-- The hardcoded `MAJOR_COINS` priority table, as an association list keyed
the way the source dict is. -/
def MAJOR_COINS : List (String × CatalogEntry) :=
  [("bitcoin", ⟨"bitcoin", "btc", "Bitcoin"⟩),
   ("btc", ⟨"bitcoin", "btc", "Bitcoin"⟩),
   ("ethereum", ⟨"ethereum", "eth", "Ethereum"⟩),
   ("eth", ⟨"ethereum", "eth", "Ethereum"⟩),
   ("solana", ⟨"solana", "sol", "Solana"⟩),
   ("sol", ⟨"solana", "sol", "Solana"⟩),
   ("ripple", ⟨"ripple", "xrp", "Ripple"⟩),
   ("xrp", ⟨"ripple", "xrp", "Ripple"⟩),
   ("cardano", ⟨"cardano", "ada", "Cardano"⟩),
   ("ada", ⟨"cardano", "ada", "Cardano"⟩),
   ("dogecoin", ⟨"dogecoin", "doge", "Dogecoin"⟩),
   ("doge", ⟨"dogecoin", "doge", "Dogecoin"⟩),
   ("binancecoin", ⟨"binancecoin", "bnb", "Binance Coin"⟩),
   ("bnb", ⟨"binancecoin", "bnb", "Binance Coin"⟩)]

/-- The keyword blacklist applied to coin names in `search_coins`. -/
def nameBlacklist : List String := ["-peg", "wrapped", "token", "staked"]

/-- The `for coin in all_coins` loop of `search_coins`: skip entries with a
missing field, a `.` or over-long symbol, or a blacklisted name; on an exact
(lowercased) match of symbol, id or name, append and stop once `limit`
results are collected (append first, then test, as the source does). -/
def searchLoop (query : String) (limit : ℕ)
    (all_coins : List CatalogEntry) (results : List CatalogEntry) :
    List CatalogEntry :=
  match all_coins with
  | [] => results
  | coin :: rest =>
    let symbol := strLower coin.symbol
    let coin_id := strLower coin.id
    let name := strLower coin.name
    if symbol = "" ∨ coin_id = "" ∨ name = "" then
      searchLoop query limit rest results
    else if strContains symbol "." ∨ symbol.length > 10 then
      searchLoop query limit rest results
    else if nameBlacklist.any (fun kw => strContains name kw) then
      searchLoop query limit rest results
    else if query = symbol ∨ query = coin_id ∨ query = name then
      if (results ++ [coin]).length ≥ limit then results ++ [coin]
      else searchLoop query limit rest (results ++ [coin])
    else
      searchLoop query limit rest results

/-- `CryptoTracker.search_coins`: lowercase the query, return the single
priority-table entry on a hit, otherwise scan the fetched catalog
(`all_coins` models `client.get_supported_coins_with_details()`). -/
def search_coins (all_coins : List CatalogEntry) (query : String)
    (limit : ℕ) : List CatalogEntry :=
  let query := strLower query
  match MAJOR_COINS.lookup query with
  | some entry => [entry]
  | none => searchLoop query limit all_coins []

/-! ### Helper lemmas -/

theorem get_market_analytics_eq_ok (cid : String) (history : List CoinPrice)
    (h : ¬ history.length < 2) :
    get_market_analytics cid history = .ok
      { coin_id := cid
        record_count := history.length
        open_price := ((history.map (·.price)).getLast?).getD 0
        close_price := ((history.map (·.price)).head?).getD 0
        high_price := ((history.map (·.price)).max?).getD 0
        low_price := ((history.map (·.price)).min?).getD 0
        average_price := mean (history.map (·.price))
        net_change_percent :=
          if ((history.map (·.price)).getLast?).getD 0 ≠ 0 then
            ((((history.map (·.price)).head?).getD 0
                - ((history.map (·.price)).getLast?).getD 0)
              / ((history.map (·.price)).getLast?).getD 0) * 100
          else 0 } := by
  simp only [get_market_analytics, if_neg h]

theorem get_trend_analysis_eq_ok (cid : String) (history : List CoinPrice)
    (h : ¬ history.length < 4) :
    get_trend_analysis cid history = .ok
      { coin_id := cid
        record_count := (history.map (·.price)).length
        trend := (_calculate_trend (history.map (·.price))).1
        volatility := _calculate_volatility (history.map (·.price))
        momentum_score :=
          _calculate_momentum
            (if ((history.map (·.price)).getLast?).getD 0 ≠ 0 then
              ((((history.map (·.price)).head?).getD 0
                  - ((history.map (·.price)).getLast?).getD 0)
                / ((history.map (·.price)).getLast?).getD 0) * 100
            else 0)
            (_calculate_trend (history.map (·.price))).2
        net_change_percent :=
          if ((history.map (·.price)).getLast?).getD 0 ≠ 0 then
            ((((history.map (·.price)).head?).getD 0
                - ((history.map (·.price)).getLast?).getD 0)
              / ((history.map (·.price)).getLast?).getD 0) * 100
          else 0 } := by
  simp only [get_trend_analysis, if_neg h]

theorem volatility_cases (prices : List ℚ) (h : 2 ≤ prices.length) :
    _calculate_volatility prices = "Low" ∨ _calculate_volatility prices = "Medium"
      ∨ _calculate_volatility prices = "High" := by
  simp only [_calculate_volatility, if_neg (by omega : ¬ prices.length < 2)]
  split_ifs <;> simp

theorem record_prices_foldl_acc (tracked : List TrackedCoin)
    (fetch : String → Except String CoinPrice) (acc : List CoinPrice) :
    tracked.foldl
        (fun prices t =>
          match fetch t.coin_id with
          | .ok p => prices ++ [p]
          | .error _ => prices)
        acc
      = acc ++ tracked.filterMap (fun c => (fetch c.coin_id).toOption) := by
  induction tracked generalizing acc with
  | nil => simp
  | cons c rest ih =>
    simp only [List.foldl_cons, List.filterMap_cons]
    cases hfc : fetch c.coin_id with
    | ok p => simp [hfc, ih, Except.toOption]
    | error e => simp [hfc, ih, Except.toOption]

theorem record_prices_eq_filterMap (tracked : List TrackedCoin)
    (fetch : String → Except String CoinPrice) :
    record_prices_for_all_tracked tracked fetch
      = tracked.filterMap (fun c => (fetch c.coin_id).toOption) := by
  by_cases h : tracked = []
  · subst h; simp [record_prices_for_all_tracked]
  · simp only [record_prices_for_all_tracked, if_neg h]
    simpa using record_prices_foldl_acc tracked fetch []

theorem length_filterMap_of_isSome {α β : Type} (f : α → Option β) (l : List α)
    (h : ∀ x ∈ l, (f x).isSome = true) :
    (l.filterMap f).length = l.length := by
  induction l with
  | nil => simp
  | cons x rest ih =>
    obtain ⟨y, hy⟩ := Option.isSome_iff_exists.mp (h x (by simp))
    simp only [List.filterMap_cons, hy, List.length_cons]
    rw [ih (fun z hz => h z (by simp [hz]))]

/-! ### Claim theorems -/

/-- C7: the momentum score is `|netChangePercent| * 0.5 + |normSlope| * 20`
clamped to `[0, 10]`: a raw value above 10 yields exactly 10, the result
always lies in `[0, 10]`, and the lower clamp never changes the raw value
because absolute values make it non-negative. -/
theorem momentum_clamped (ncp ns : ℚ) :
    (|ncp| * (1 / 2) + |ns| * 20 > 10 → _calculate_momentum ncp ns = 10)
    ∧ 0 ≤ _calculate_momentum ncp ns
    ∧ _calculate_momentum ncp ns ≤ 10
    ∧ max (|ncp| * (1 / 2) + |ns| * 20) 0 = |ncp| * (1 / 2) + |ns| * 20 := by
  have hraw : (0 : ℚ) ≤ |ncp| * (1 / 2) + |ns| * 20 := by positivity
  refine ⟨?_, ?_, ?_, max_eq_left hraw⟩
  · intro h
    simp only [_calculate_momentum]
    rw [max_eq_left hraw, min_eq_right h.le]
  · exact le_min (le_max_right _ _) (by norm_num)
  · exact min_le_right _ _

/-- C7 witness: `netChangePercent = 30`, `normSlope = 0` gives raw momentum
`15 > 10`, clamped to exactly `10`. -/
theorem momentum_clamped_witness : _calculate_momentum 30 0 = 10 :=
  (momentum_clamped 30 0).1 (by norm_num)

/-- C2: `get_market_analytics` fails with the insufficient-data error exactly
when the fetched window has fewer than 2 records and succeeds with
`record_count = 2` on exactly 2; `get_trend_analysis` fails exactly below 4
records and succeeds at exactly 4. -/
theorem insufficient_data_guards (cid : String) (history : List CoinPrice) :
    ((∃ e, get_market_analytics cid history = .error e) ↔ history.length < 2)
    ∧ (history.length < 2 →
        get_market_analytics cid history = .error (.insufficientData 2 history.length))
    ∧ (history.length = 2 →
        (get_market_analytics cid history).isOk = true
        ∧ ∀ m, get_market_analytics cid history = .ok m → m.record_count = 2)
    ∧ ((∃ e, get_trend_analysis cid history = .error e) ↔ history.length < 4)
    ∧ (history.length < 4 →
        get_trend_analysis cid history = .error (.insufficientData 4 history.length))
    ∧ (history.length = 4 →
        (get_trend_analysis cid history).isOk = true
        ∧ ∀ t, get_trend_analysis cid history = .ok t → t.record_count = 4) := by
  refine ⟨⟨?_, ?_⟩, ?_, ?_, ⟨?_, ?_⟩, ?_, ?_⟩
  · rintro ⟨e, he⟩
    by_contra h
    rw [get_market_analytics_eq_ok cid history h] at he
    exact Except.noConfusion he
  · intro h
    exact ⟨TrackerError.insufficientData 2 history.length,
      by simp only [get_market_analytics, if_pos h]⟩
  · intro h
    simp only [get_market_analytics, if_pos h]
  · intro h
    have hn : ¬ history.length < 2 := by omega
    rw [get_market_analytics_eq_ok cid history hn]
    refine ⟨rfl, fun m hm => ?_⟩
    injection hm with hm
    rw [← hm]
    simpa using h
  · rintro ⟨e, he⟩
    by_contra h
    rw [get_trend_analysis_eq_ok cid history h] at he
    exact Except.noConfusion he
  · intro h
    exact ⟨TrackerError.insufficientData 4 history.length,
      by simp only [get_trend_analysis, if_pos h]⟩
  · intro h
    simp only [get_trend_analysis, if_pos h]
  · intro h
    have hn : ¬ history.length < 4 := by omega
    rw [get_trend_analysis_eq_ok cid history hn]
    refine ⟨rfl, fun t ht => ?_⟩
    injection ht with ht
    rw [← ht]
    simpa using h

/-- C2 witness: an empty window fails with the insufficient-data error, a
2-record window succeeds, a 3-record window fails the trend guard, and a
4-record window passes it. -/
theorem insufficient_data_guards_witness :
    get_market_analytics "bitcoin" [] = .error (.insufficientData 2 0)
    ∧ (get_market_analytics "bitcoin" [⟨"bitcoin", 110⟩, ⟨"bitcoin", 100⟩]).isOk = true
    ∧ get_trend_analysis "bitcoin"
        [⟨"bitcoin", 3⟩, ⟨"bitcoin", 2⟩, ⟨"bitcoin", 1⟩]
        = .error (.insufficientData 4 3)
    ∧ (get_trend_analysis "bitcoin"
        [⟨"bitcoin", 4⟩, ⟨"bitcoin", 3⟩, ⟨"bitcoin", 2⟩, ⟨"bitcoin", 1⟩]).isOk = true :=
  ⟨(insufficient_data_guards "bitcoin" []).2.1 (by simp),
   ((insufficient_data_guards "bitcoin" _).2.2.1 (by simp)).1,
   (insufficient_data_guards "bitcoin" _).2.2.2.2.1 (by simp),
   ((insufficient_data_guards "bitcoin" _).2.2.2.2.2 (by simp)).1⟩

/-- C3 counterexample: the engine performs no limit validation at all — with
the negative limit `-5` and a store query returning a 2-record window,
`get_market_analytics` still fetches and succeeds instead of surfacing an
`InvalidInput` error before the fetch. -/
theorem no_invalid_input_check_counterexample :
    get_market_analytics_op "bitcoin"
        (fun _ _ => [⟨"bitcoin", 110⟩, ⟨"bitcoin", 100⟩]) (-5)
      = .ok { coin_id := "bitcoin", record_count := 2, open_price := 100,
              close_price := 110, high_price := 110, low_price := 100,
              average_price := 105, net_change_percent := 10 } := by
  show get_market_analytics "bitcoin" [⟨"bitcoin", 110⟩, ⟨"bitcoin", 100⟩] = _
  rw [get_market_analytics_eq_ok _ _ (by simp)]
  norm_num [mean, List.max?, List.min?]

/-- C3 (amended): neither analytics operation ever surfaces an `InvalidInput`
error, for any limit (zero and negative included): the fetch always runs
first and the outcome is entirely determined by the window it returns — the
only engine-raised failure is the insufficient-data error. -/
theorem no_invalid_input_error (cid : String)
    (fetch : String → ℤ → List CoinPrice) (limit : ℤ) :
    get_market_analytics_op cid fetch limit ≠ .error .invalidInput
    ∧ get_trend_analysis_op cid fetch limit ≠ .error .invalidInput
    ∧ get_market_analytics_op cid fetch limit
        = get_market_analytics cid (fetch cid limit)
    ∧ get_trend_analysis_op cid fetch limit
        = get_trend_analysis cid (fetch cid limit) := by
  refine ⟨?_, ?_, rfl, rfl⟩
  · show get_market_analytics cid (fetch cid limit) ≠ _
    by_cases h : (fetch cid limit).length < 2
    · simp only [get_market_analytics, if_pos h]
      intro he
      injection he with he
      exact TrackerError.noConfusion he
    · rw [get_market_analytics_eq_ok cid _ h]
      exact fun he => Except.noConfusion he
  · show get_trend_analysis cid (fetch cid limit) ≠ _
    by_cases h : (fetch cid limit).length < 4
    · simp only [get_trend_analysis, if_pos h]
      intro he
      injection he with he
      exact TrackerError.noConfusion he
    · rw [get_trend_analysis_eq_ok cid _ h]
      exact fun he => Except.noConfusion he

/-- C9: when exactly one tracked coin's price fetch fails, the batch keeps
iterating, returns exactly the snapshots of the successful coins in order,
and propagates no failure (the result is a plain list). -/
theorem record_prices_partial_batch (pre post : List TrackedCoin)
    (t : TrackedCoin) (fetch : String → Except String CoinPrice) (e : String)
    (hfail : fetch t.coin_id = .error e)
    (hok : ∀ c ∈ pre ++ post, (fetch c.coin_id).isOk = true) :
    record_prices_for_all_tracked (pre ++ t :: post) fetch
      = (pre ++ post).filterMap (fun c => (fetch c.coin_id).toOption)
    ∧ (record_prices_for_all_tracked (pre ++ t :: post) fetch).length
        = pre.length + post.length := by
  have heq : record_prices_for_all_tracked (pre ++ t :: post) fetch
      = (pre ++ post).filterMap (fun c => (fetch c.coin_id).toOption) := by
    rw [record_prices_eq_filterMap]
    simp [List.filterMap_append, List.filterMap_cons, hfail, Except.toOption]
  refine ⟨heq, ?_⟩
  rw [heq, length_filterMap_of_isSome _ _ ?_, List.length_append]
  intro c hc
  have := hok c hc
  cases hfc : fetch c.coin_id with
  | ok p => simp [Except.toOption]
  | error err => rw [hfc] at this; exact Bool.noConfusion this

/-- C9 witness: two tracked coins, the fetch for ethereum fails, the batch
returns exactly the bitcoin snapshot. -/
theorem record_prices_partial_batch_witness :
    record_prices_for_all_tracked
        [⟨"bitcoin", "btc", "Bitcoin"⟩, ⟨"ethereum", "eth", "Ethereum"⟩]
        (fun cid => if cid = "bitcoin" then .ok ⟨"bitcoin", 65000⟩
                    else .error "API failed")
      = [⟨"bitcoin", 65000⟩]
    ∧ (record_prices_for_all_tracked
        [⟨"bitcoin", "btc", "Bitcoin"⟩, ⟨"ethereum", "eth", "Ethereum"⟩]
        (fun cid => if cid = "bitcoin" then .ok ⟨"bitcoin", 65000⟩
                    else .error "API failed")).length = 1 := by
  have h := record_prices_partial_batch
    [⟨"bitcoin", "btc", "Bitcoin"⟩] [] ⟨"ethereum", "eth", "Ethereum"⟩
    (fun cid => if cid = "bitcoin" then .ok ⟨"bitcoin", 65000⟩
                else .error "API failed")
    "API failed" (by simp) (by intro c hc; simp at hc; subst hc; rfl)
  simpa [Except.toOption] using h

/-- C1 (code-bug evidence): the fetched window is not reversed before being
fed to the trend calculator.  The store returns the window newest-first as
prices `[4, 3, 2, 1]`, so the chronological price sequence is `[1, 2, 3, 4]`,
whose normalized slope `40` exceeds `0.5` and which `_calculate_trend`
labels "Strong Uptrend"; yet `get_trend_analysis` passes the unreversed
newest-first sequence to `_calculate_trend` and labels the window
"Strong Downtrend". -/
theorem trend_not_reversed_bug :
    ([(⟨"bitcoin", 4⟩ : CoinPrice), ⟨"bitcoin", 3⟩, ⟨"bitcoin", 2⟩,
        ⟨"bitcoin", 1⟩].map (·.price)).reverse = [1, 2, 3, 4]
    ∧ _calculate_trend [1, 2, 3, 4] = ("Strong Uptrend", 40)
    ∧ ((1 : ℚ) / 2 < 40)
    ∧ _calculate_trend [4, 3, 2, 1] = ("Strong Downtrend", -40)
    ∧ get_trend_analysis "bitcoin"
        [⟨"bitcoin", 4⟩, ⟨"bitcoin", 3⟩, ⟨"bitcoin", 2⟩, ⟨"bitcoin", 1⟩]
        = .ok ⟨"bitcoin", 4, "Strong Downtrend", "High", 10, 300⟩ := by
  have htr : _calculate_trend [4, 3, 2, 1] = ("Strong Downtrend", -40) := by
    norm_num [_calculate_trend, trendLabel, mean, List.range_succ, List.getD]
  have hv : _calculate_volatility [4, 3, 2, 1] = "High" := by
    norm_num [_calculate_volatility, cvLt, sampleVariance, mean]
  have hmom : _calculate_momentum 300 (-40) = 10 := by
    simp only [_calculate_momentum]
    rw [abs_of_nonneg (by norm_num : (0 : ℚ) ≤ 300),
      abs_of_nonpos (by norm_num : (-40 : ℚ) ≤ 0)]
    norm_num [max_def, min_def]
  refine ⟨by norm_num, ?_, by norm_num, htr, ?_⟩
  · norm_num [_calculate_trend, trendLabel, mean, List.range_succ, List.getD]
  · rw [get_trend_analysis_eq_ok _ _ (by simp)]
    norm_num [htr, hv, hmom]

/-- C6: the trend label follows from the normalized slope by the strict
comparisons `> 0.5`, `> 0.1`, `< -0.5`, `< -0.1`, evaluated in that order
with first match winning (and Sideways otherwise); a normalized slope of
exactly `0.1` is labelled Sideways. -/
theorem trend_label_thresholds (prices : List ℚ) (_hne : prices ≠ []) :
    ((_calculate_trend prices).2 > 1 / 2 →
        (_calculate_trend prices).1 = "Strong Uptrend")
    ∧ ((_calculate_trend prices).2 ≤ 1 / 2 → (_calculate_trend prices).2 > 1 / 10 →
        (_calculate_trend prices).1 = "Uptrend")
    ∧ ((_calculate_trend prices).2 < -(1 / 2) →
        (_calculate_trend prices).1 = "Strong Downtrend")
    ∧ (-(1 / 2) ≤ (_calculate_trend prices).2 →
        (_calculate_trend prices).2 < -(1 / 10) →
        (_calculate_trend prices).1 = "Downtrend")
    ∧ (-(1 / 10) ≤ (_calculate_trend prices).2 →
        (_calculate_trend prices).2 ≤ 1 / 10 →
        (_calculate_trend prices).1 = "Sideways")
    ∧ ((_calculate_trend prices).2 = 1 / 10 →
        (_calculate_trend prices).1 = "Sideways") := by
  have key : (_calculate_trend prices).1 = trendLabel (_calculate_trend prices).2 := rfl
  rw [key]
  generalize (_calculate_trend prices).2 = ns
  unfold trendLabel
  refine ⟨?_, ?_, ?_, ?_, ?_, ?_⟩ <;> intros <;> split_ifs <;>
    first
    | rfl
    | linarith

/-- C6 witness: the price sequence `[1999, 2001]` produces a normalized slope
of exactly `0.1` and the label Sideways, not Uptrend. -/
theorem trend_label_thresholds_witness :
    (_calculate_trend [1999, 2001]).2 = 1 / 10
    ∧ (_calculate_trend [1999, 2001]).1 = "Sideways" :=
  have h : (_calculate_trend [1999, 2001]).2 = 1 / 10 := by
    norm_num [_calculate_trend, trendLabel, mean, List.range_succ, List.getD]
  ⟨h, (trend_label_thresholds [1999, 2001] (by simp)).2.2.2.2.2 h⟩

/-- C4: whenever `get_market_analytics` succeeds on the newest-first window,
`open_price` is the price of the chronologically oldest observation (the last
element of the fetched window) and `close_price` that of the chronologically
newest (the first element); `net_change_percent` is `(close-open)/open*100`,
and `0` when the open price is `0`.  Chronological prices `[100, 110]`
(fetched as `[110, 100]`) give exactly `10`, `[100, 0]` give exactly `-100`,
and a zero open price gives `0` without failing. -/
theorem market_analytics_open_close (cid : String) (history : List CoinPrice)
    (newest oldest : CoinPrice) (m : MarketAnalytics)
    (hhead : history.head? = some newest) (hlast : history.getLast? = some oldest)
    (hok : get_market_analytics cid history = .ok m) :
    (m.open_price = oldest.price
      ∧ m.close_price = newest.price
      ∧ m.net_change_percent =
          (if oldest.price ≠ 0 then
            ((newest.price - oldest.price) / oldest.price) * 100
          else 0)
      ∧ (oldest.price = 0 → m.net_change_percent = 0))
    ∧ get_market_analytics cid [⟨cid, 110⟩, ⟨cid, 100⟩]
        = .ok ⟨cid, 2, 100, 110, 110, 100, 105, 10⟩
    ∧ get_market_analytics cid [⟨cid, 0⟩, ⟨cid, 100⟩]
        = .ok ⟨cid, 2, 100, 0, 100, 0, 50, -100⟩
    ∧ get_market_analytics cid [⟨cid, 5⟩, ⟨cid, 0⟩]
        = .ok ⟨cid, 2, 0, 5, 5, 0, 5 / 2, 0⟩ := by
  have hn : ¬ history.length < 2 := by
    intro h
    rw [show get_market_analytics cid history
        = .error (.insufficientData 2 history.length) from
      by simp only [get_market_analytics, if_pos h]] at hok
    exact Except.noConfusion hok
  rw [get_market_analytics_eq_ok cid history hn] at hok
  injection hok with hok
  refine ⟨?_, ?_, ?_, ?_⟩
  · rw [← hok]
    simp only [List.getLast?_map, List.head?_map, hhead, hlast, Option.map_some,
      Option.getD_some]
    exact ⟨rfl, rfl, rfl, fun h0 => by simp [h0]⟩
  · rw [get_market_analytics_eq_ok _ _ (by simp)]
    norm_num [mean, List.max?, List.min?]
  · rw [get_market_analytics_eq_ok _ _ (by simp)]
    norm_num [mean, List.max?, List.min?]
  · rw [get_market_analytics_eq_ok _ _ (by simp)]
    norm_num [mean, List.max?, List.min?]

/-- C4 witness: on the window fetched as `[110, 100]` (chronological
`[100, 110]`) the report opens at `100`, closes at `110` and has net change
exactly `10` percent. -/
theorem market_analytics_open_close_witness :
    ((⟨"bitcoin", 2, 100, 110, 110, 100, 105, 10⟩ : MarketAnalytics).open_price = 100
      ∧ (⟨"bitcoin", 2, 100, 110, 110, 100, 105, 10⟩ : MarketAnalytics).close_price = 110
      ∧ (⟨"bitcoin", 2, 100, 110, 110, 100, 105, 10⟩ : MarketAnalytics).net_change_percent =
          (if (100 : ℚ) ≠ 0 then (((110 : ℚ) - 100) / 100) * 100 else 0)
      ∧ ((100 : ℚ) = 0 →
          (⟨"bitcoin", 2, 100, 110, 110, 100, 105, 10⟩ : MarketAnalytics).net_change_percent
            = 0)) :=
  (market_analytics_open_close "bitcoin" [⟨"bitcoin", 110⟩, ⟨"bitcoin", 100⟩]
    ⟨"bitcoin", 110⟩ ⟨"bitcoin", 100⟩ ⟨"bitcoin", 2, 100, 110, 110, 100, 105, 10⟩
    rfl rfl
    (by rw [get_market_analytics_eq_ok _ _ (by simp)]
        norm_num [mean, List.max?, List.min?])).1

/-- C10: a successful `get_trend_analysis` never reports the volatility
`"Unknown"` — the 4-record guard makes the fewer-than-2-prices branch of
`_calculate_volatility` unreachable, so the volatility is Low, Medium or
High. -/
theorem trend_volatility_never_unknown (cid : String) (history : List CoinPrice)
    (t : TrendAnalysis) (h : get_trend_analysis cid history = .ok t) :
    t.volatility ≠ "Unknown"
    ∧ (t.volatility = "Low" ∨ t.volatility = "Medium" ∨ t.volatility = "High") := by
  have hn : ¬ history.length < 4 := by
    intro hlt
    rw [show get_trend_analysis cid history
        = .error (.insufficientData 4 history.length) from
      by simp only [get_trend_analysis, if_pos hlt]] at h
    exact Except.noConfusion h
  rw [get_trend_analysis_eq_ok cid history hn] at h
  injection h with h
  have hvol : t.volatility = _calculate_volatility (history.map (·.price)) := by
    rw [← h]
  have hcases := volatility_cases (history.map (·.price)) (by simp; omega)
  rw [← hvol] at hcases
  refine ⟨?_, hcases⟩
  rcases hcases with hc | hc | hc <;> rw [hc] <;> simp

/-- C10 witness: the 4-record window fetched as `[4, 3, 2, 1]` yields a
successful report whose volatility is High, not Unknown. -/
theorem trend_volatility_never_unknown_witness :
    ((⟨"bitcoin", 4, "Strong Downtrend", "High", 10, 300⟩ : TrendAnalysis).volatility
        ≠ "Unknown")
    ∧ ((⟨"bitcoin", 4, "Strong Downtrend", "High", 10, 300⟩ : TrendAnalysis).volatility = "Low"
        ∨ (⟨"bitcoin", 4, "Strong Downtrend", "High", 10, 300⟩ : TrendAnalysis).volatility
            = "Medium"
        ∨ (⟨"bitcoin", 4, "Strong Downtrend", "High", 10, 300⟩ : TrendAnalysis).volatility
            = "High") :=
  trend_volatility_never_unknown "bitcoin"
    [⟨"bitcoin", 4⟩, ⟨"bitcoin", 3⟩, ⟨"bitcoin", 2⟩, ⟨"bitcoin", 1⟩]
    ⟨"bitcoin", 4, "Strong Downtrend", "High", 10, 300⟩
    (by
      have htr : _calculate_trend [4, 3, 2, 1] = ("Strong Downtrend", -40) := by
        norm_num [_calculate_trend, trendLabel, mean, List.range_succ, List.getD]
      have hv : _calculate_volatility [4, 3, 2, 1] = "High" := by
        norm_num [_calculate_volatility, cvLt, sampleVariance, mean]
      have hmom : _calculate_momentum 300 (-40) = 10 := by
        simp only [_calculate_momentum]
        rw [abs_of_nonneg (by norm_num : (0 : ℚ) ≤ 300),
          abs_of_nonpos (by norm_num : (-40 : ℚ) ≤ 0)]
        norm_num [max_def, min_def]
      rw [get_trend_analysis_eq_ok _ _ (by simp)]
      norm_num [htr, hv, hmom])

/-! ### Volatility: the rational classifier decides the real comparison -/

theorem cvLt_iff_coeff_var_lt (prices : List ℚ) (t : ℚ) (ht : 0 < t) :
    cvLt prices t = true ↔ coeff_var prices < (t : ℝ) := by
  have htR : (0 : ℝ) < (t : ℝ) := by exact_mod_cast ht
  unfold cvLt coeff_var std_dev
  by_cases h0 : mean prices = 0
  · rw [if_pos h0, if_neg (fun hne => hne h0)]
    simp only [decide_eq_true_eq]
    exact ⟨fun _ => htR, fun _ => ht⟩
  · rw [if_neg h0, if_pos h0]
    by_cases hneg : mean prices < 0
    · rw [if_pos hneg]
      have hle : Real.sqrt ((sampleVariance prices : ℚ) : ℝ)
          / ((mean prices : ℚ) : ℝ) ≤ 0 :=
        div_nonpos_of_nonneg_of_nonpos (Real.sqrt_nonneg _)
          (by exact_mod_cast hneg.le)
      exact ⟨fun _ => lt_of_le_of_lt hle htR, fun _ => rfl⟩
    · have hpos : 0 < mean prices := lt_of_le_of_ne (not_lt.mp hneg) (Ne.symm h0)
      have hposR : (0 : ℝ) < ((mean prices : ℚ) : ℝ) := by exact_mod_cast hpos
      rw [if_neg hneg]
      simp only [decide_eq_true_eq]
      rw [div_lt_iff₀ hposR, Real.sqrt_lt' (mul_pos htR hposR)]
      constructor
      · intro h
        exact_mod_cast h
      · intro h
        exact_mod_cast h

/-- C5: fewer than 2 prices gives Unknown; on 2 or more prices the
classification of the coefficient of variation (Bessel-corrected sample
standard deviation over the mean, 0 on a zero mean) is Low below 0.01, Medium
from 0.01 up to but excluding 0.05, High from 0.05 on, with strict `<` at
both boundaries; every constant sequence of at least 2 equal nonzero prices
is Low. -/
theorem volatility_classification (prices : List ℚ) :
    (prices.length < 2 → _calculate_volatility prices = "Unknown")
    ∧ (2 ≤ prices.length →
        ((_calculate_volatility prices = "Low" ↔ coeff_var prices < 1 / 100)
         ∧ (_calculate_volatility prices = "Medium" ↔
             (1 / 100 : ℝ) ≤ coeff_var prices ∧ coeff_var prices < 5 / 100)
         ∧ (_calculate_volatility prices = "High" ↔
             (5 / 100 : ℝ) ≤ coeff_var prices)))
    ∧ (∀ (p : ℚ) (n : ℕ), p ≠ 0 → 2 ≤ n →
        _calculate_volatility (List.replicate n p) = "Low") := by
  refine ⟨?_, ?_, ?_⟩
  · intro h
    simp only [_calculate_volatility, if_pos h]
  · intro h2
    have hn : ¬ prices.length < 2 := by omega
    have e1 : cvLt prices (1 / 100) = true ↔ coeff_var prices < 1 / 100 := by
      have := cvLt_iff_coeff_var_lt prices (1 / 100) (by norm_num)
      rwa [show (((1 : ℚ) / 100 : ℚ) : ℝ) = 1 / 100 by push_cast; ring] at this
    have e5 : cvLt prices (5 / 100) = true ↔ coeff_var prices < 5 / 100 := by
      have := cvLt_iff_coeff_var_lt prices (5 / 100) (by norm_num)
      rwa [show (((5 : ℚ) / 100 : ℚ) : ℝ) = 5 / 100 by push_cast; ring] at this
    simp only [_calculate_volatility, if_neg hn]
    by_cases c1 : cvLt prices (1 / 100) = true
    · have hcv : coeff_var prices < 1 / 100 := e1.mp c1
      rw [if_pos c1]
      exact ⟨iff_of_true rfl hcv,
        iff_of_false (by decide) (fun hc => absurd hcv (not_lt.mpr hc.1)),
        iff_of_false (by decide)
          (fun hc => absurd hcv (not_lt.mpr (le_trans (by norm_num) hc)))⟩
    · have hcv1 : ¬ coeff_var prices < 1 / 100 := fun hc => c1 (e1.mpr hc)
      rw [if_neg c1]
      by_cases c5 : cvLt prices (5 / 100) = true
      · have hcv5 : coeff_var prices < 5 / 100 := e5.mp c5
        rw [if_pos c5]
        exact ⟨iff_of_false (by decide) hcv1,
          iff_of_true rfl ⟨not_lt.mp hcv1, hcv5⟩,
          iff_of_false (by decide) (fun hc => absurd hcv5 (not_lt.mpr hc))⟩
      · have hcv5 : ¬ coeff_var prices < 5 / 100 := fun hc => c5 (e5.mpr hc)
        rw [if_neg c5]
        exact ⟨iff_of_false (by decide) hcv1,
          iff_of_false (by decide) (fun hc => hcv5 hc.2),
          iff_of_true rfl (not_lt.mp hcv5)⟩
  · intro p n hp hn
    have hnq : ((n : ℚ)) ≠ 0 := Nat.cast_ne_zero.mpr (by omega)
    have hm : mean (List.replicate n p) = p := by
      simp only [mean, List.sum_replicate, List.length_replicate, nsmul_eq_mul]
      exact mul_div_cancel_left₀ p hnq
    have hvar : sampleVariance (List.replicate n p) = 0 := by
      simp [sampleVariance, hm]
    have hlen : ¬ (List.replicate n p).length < 2 := by simp; omega
    simp only [_calculate_volatility, if_neg hlen]
    have hcv : cvLt (List.replicate n p) (1 / 100) = true := by
      simp only [cvLt, hm, hvar]
      rcases lt_trichotomy p 0 with hneg | hzero | hpos
      · rw [if_neg hp, if_pos hneg]
      · exact absurd hzero hp
      · rw [if_neg hp, if_neg (not_lt.mpr hpos.le), decide_eq_true_eq]
        positivity
    rw [if_pos hcv]

/-- C5 witness: the constant 2-element sequence `[7, 7]` is classified Low. -/
theorem volatility_classification_witness :
    _calculate_volatility (List.replicate 2 (7 : ℚ)) = "Low" :=
  (volatility_classification (List.replicate 2 7)).2.2 7 2 (by norm_num) (by norm_num)

/-! ### Catalog search: quality filters -/

theorem strContains_mono_lower (s sub : String) (h : strContains s sub = true) :
    strContains (strLower s) (strLower sub) = true := by
  simp only [strContains, decide_eq_true_eq] at h ⊢
  have hs : (strLower s).data = s.data.map Char.toLower := rfl
  have hsub2 : (strLower sub).data = sub.data.map Char.toLower := rfl
  rw [hs, hsub2]
  obtain ⟨u, v, huv⟩ := h
  exact ⟨u.map Char.toLower, v.map Char.toLower, by rw [← huv]; simp⟩

theorem strContains_of_lower_false (s sub : String)
    (hl : strLower sub = sub) (h : strContains (strLower s) sub = false) :
    strContains s sub = false := by
  by_contra hc
  rw [Bool.not_eq_false] at hc
  have hm := strContains_mono_lower s sub hc
  rw [hl, h] at hm
  exact Bool.noConfusion hm

theorem strLower_length (s : String) : (strLower s).length = s.length := by
  show (s.data.map Char.toLower).length = s.data.length
  simp

/-- The quality filters that every appended catalog entry has passed. -/
def passesFilters (e : CatalogEntry) : Prop :=
  strContains (strLower e.symbol) "." = false
  ∧ (strLower e.symbol).length ≤ 10
  ∧ ∀ kw ∈ nameBlacklist, strContains (strLower e.name) kw = false

theorem passesFilters_of_conds (coin : CatalogEntry)
    (h2 : ¬ (strContains (strLower coin.symbol) "." = true
          ∨ (strLower coin.symbol).length > 10))
    (h3 : ¬ nameBlacklist.any (fun kw => strContains (strLower coin.name) kw) = true) :
    passesFilters coin := by
  push_neg at h2
  refine ⟨by simpa using h2.1, by omega, ?_⟩
  intro kw hkw
  by_contra hc
  rw [Bool.not_eq_false] at hc
  exact h3 (List.any_eq_true.mpr ⟨kw, hkw, hc⟩)

theorem searchLoop_mem (query : String) (limit : ℕ)
    (all_coins : List CatalogEntry) :
    ∀ acc : List CatalogEntry, ∀ e ∈ searchLoop query limit all_coins acc,
      e ∈ acc ∨ passesFilters e := by
  induction all_coins with
  | nil =>
    intro acc e he
    rw [searchLoop] at he
    exact Or.inl he
  | cons coin rest ih =>
    intro acc e he
    simp only [searchLoop] at he
    split_ifs at he with h1 h2 h3 h4 h5
    · exact ih acc e he
    · exact ih acc e he
    · exact ih acc e he
    · rcases List.mem_append.mp he with hacc | hc
      · exact Or.inl hacc
      · simp only [List.mem_singleton] at hc
        rw [hc]
        exact Or.inr (passesFilters_of_conds coin h2 h3)
    · rcases ih (acc ++ [coin]) e he with hmem | hgood
      · rcases List.mem_append.mp hmem with hacc | hc
        · exact Or.inl hacc
        · simp only [List.mem_singleton] at hc
          rw [hc]
          exact Or.inr (passesFilters_of_conds coin h2 h3)
      · exact Or.inr hgood
    · exact ih acc e he

/-- C8: for every query missing from the priority table, no entry returned by
`search_coins` has a symbol containing `.` or longer than 10 characters, or a
name containing one of the blacklisted substrings `-peg`, `wrapped`, `token`,
`staked` — whatever the query (an exact id match included). -/
theorem search_coins_quality_filters (all_coins : List CatalogEntry)
    (query : String) (limit : ℕ)
    (hq : MAJOR_COINS.lookup (strLower query) = none) :
    ∀ e ∈ search_coins all_coins query limit,
      strContains e.symbol "." = false
      ∧ e.symbol.length ≤ 10
      ∧ strContains e.name "-peg" = false
      ∧ strContains e.name "wrapped" = false
      ∧ strContains e.name "token" = false
      ∧ strContains e.name "staked" = false := by
  intro e he
  simp only [search_coins, hq] at he
  rcases searchLoop_mem (strLower query) limit all_coins [] e he with hacc | hgood
  · exact absurd hacc (List.not_mem_nil e)
  · obtain ⟨hdot, hlen, hbl⟩ := hgood
    refine ⟨strContains_of_lower_false _ _ (by decide) hdot,
      by rw [← strLower_length]; exact hlen,
      strContains_of_lower_false _ _ (by decide) (hbl "-peg" (by simp [nameBlacklist])),
      strContains_of_lower_false _ _ (by decide) (hbl "wrapped" (by simp [nameBlacklist])),
      strContains_of_lower_false _ _ (by decide) (hbl "token" (by simp [nameBlacklist])),
      strContains_of_lower_false _ _ (by decide) (hbl "staked" (by simp [nameBlacklist]))⟩

/-- C8 witness: with a catalog holding a dotted-symbol entry and a clean one,
the query `myc` (not a priority key) returns the clean entry, and that entry
passes every quality filter. -/
theorem search_coins_quality_filters_witness :
    strContains (CatalogEntry.mk "mycoin" "myc" "MyCoin").symbol "." = false
    ∧ (CatalogEntry.mk "mycoin" "myc" "MyCoin").symbol.length ≤ 10
    ∧ strContains (CatalogEntry.mk "mycoin" "myc" "MyCoin").name "-peg" = false
    ∧ strContains (CatalogEntry.mk "mycoin" "myc" "MyCoin").name "wrapped" = false
    ∧ strContains (CatalogEntry.mk "mycoin" "myc" "MyCoin").name "token" = false
    ∧ strContains (CatalogEntry.mk "mycoin" "myc" "MyCoin").name "staked" = false :=
  search_coins_quality_filters
    [⟨"spam-coin-peg", "spam.x", "SpamCoin"⟩, ⟨"mycoin", "myc", "MyCoin"⟩]
    "myc" 10 (by decide) ⟨"mycoin", "myc", "MyCoin"⟩ (by decide)

end CryptoTracker
